import Mathlib

/-!
Verification of the ingestion pipeline in `scripts/ingest_data.py`.

Python text is modelled as `List Char`, float vectors as `List ℚ`, the
HTTP transport and the database as explicit state.  Each definition is a
direct translation of the corresponding Python function; line numbers in
the doc comments refer to `scripts/ingest_data.py`.
-/

set_option autoImplicit false
set_option maxRecDepth 100000

namespace Ingest

/-! ### Configuration (lines 35-36) -/

/-- `CHUNK_SIZE = 500` (line 35). -/
def CHUNK_SIZE : Nat := 500

/-- `CHUNK_OVERLAP = 100` (line 36). -/
def CHUNK_OVERLAP : Nat := 100

/-! ### Chunker: `split_text_into_chunks` (lines 260-277) -/

/-- Python whitespace characters, as recognised by `str.strip()` (ASCII part). -/
def isPySpace (c : Char) : Bool :=
  c = ' ' || c = '\t' || c = '\n' || c = '\x0b' || c = '\x0c' || c = '\r'

/-- `if chunk.strip():` — a chunk is kept iff it contains a non-whitespace
character (line 274). -/
def chunkKeep (c : List Char) : Bool :=
  c.any (fun ch => ! isPySpace ch)

/-- The loop body of `split_text_into_chunks`, with an explicit fuel argument
to make the recursion structural.  The fuel is always instantiated with the
text length, which bounds the iteration count of
`for i in range(0, len(text), CHUNK_SIZE - CHUNK_OVERLAP)` since the stride
is positive.  Each step takes `CHUNK_SIZE` characters
(`chunk = text[i:min(i + CHUNK_SIZE, len(text))]`, lines 266-271) and
advances by the stride `CHUNK_SIZE - CHUNK_OVERLAP`. -/
def chunkWindowsAux : Nat → List Char → List (List Char)
  | 0, _ => []
  | _ + 1, [] => []
  | fuel + 1, c :: rest =>
    ((c :: rest).take CHUNK_SIZE) ::
      chunkWindowsAux fuel ((c :: rest).drop (CHUNK_SIZE - CHUNK_OVERLAP))

/-- The windows produced by the chunking loop (lines 266-271). -/
def chunkWindows (t : List Char) : List (List Char) :=
  chunkWindowsAux t.length t

/-- The fuel argument is irrelevant as long as it dominates the text length. -/
theorem chunkWindowsAux_congr :
    ∀ (f₁ f₂ : Nat) (t : List Char), t.length ≤ f₁ → t.length ≤ f₂ →
      chunkWindowsAux f₁ t = chunkWindowsAux f₂ t := by
  intro f₁
  induction f₁ with
  | zero =>
    intro f₂ t h₁ _
    have ht : t = [] := List.eq_nil_of_length_eq_zero (Nat.le_zero.mp h₁)
    subst ht
    cases f₂ <;> rfl
  | succ f₁ ih =>
    intro f₂ t h₁ h₂
    cases t with
    | nil => cases f₂ <;> rfl
    | cons c rest =>
      cases f₂ with
      | zero => simp at h₂
      | succ f₂ =>
        show _ :: chunkWindowsAux f₁ _ = _ :: chunkWindowsAux f₂ _
        have hd : ((c :: rest).drop (CHUNK_SIZE - CHUNK_OVERLAP)).length
            = rest.length + 1 - (CHUNK_SIZE - CHUNK_OVERLAP) := by
          simp
        have : ((c :: rest).drop (CHUNK_SIZE - CHUNK_OVERLAP)).length ≤ f₁ ∧
            ((c :: rest).drop (CHUNK_SIZE - CHUNK_OVERLAP)).length ≤ f₂ := by
          rw [hd]
          simp only [List.length_cons, CHUNK_SIZE, CHUNK_OVERLAP] at h₁ h₂ ⊢
          omega
        rw [ih _ _ this.1 this.2]

/-- `split_text_into_chunks` (lines 260-277): produce the stride windows and
keep only those that pass the `chunk.strip()` test. -/
def split_text_into_chunks (text : List Char) : List (List Char) :=
  (chunkWindows text).filter chunkKeep

/-- Undo the overlap: keep the first chunk whole and drop the first
`CHUNK_OVERLAP` characters of every later chunk, then concatenate.  This is
the de-overlapping operation the spec's reconstruction property refers to. -/
def deoverlap : List (List Char) → List Char
  | [] => []
  | c :: cs => c ++ (cs.map (fun d => d.drop CHUNK_OVERLAP)).flatten

/-! #### Chunker lemmas -/

theorem chunkWindows_nil : chunkWindows [] = [] := rfl

theorem chunkWindows_cons (c : Char) (rest : List Char) :
    chunkWindows (c :: rest) =
      ((c :: rest).take CHUNK_SIZE) ::
        chunkWindows ((c :: rest).drop (CHUNK_SIZE - CHUNK_OVERLAP)) := by
  show chunkWindowsAux (rest.length + 1) (c :: rest) = _
  show _ :: chunkWindowsAux rest.length ((c :: rest).drop _) = _
  rw [chunkWindows]
  congr 1
  apply chunkWindowsAux_congr
  · simp only [List.length_drop, List.length_cons, CHUNK_SIZE, CHUNK_OVERLAP]
    omega
  · exact le_rfl

/-- Dropping the overlap from every window and concatenating yields the text
minus its first `CHUNK_OVERLAP` characters. -/
theorem chunkWindowsAux_flatten_drop :
    ∀ (fuel : Nat) (t : List Char), t.length ≤ fuel →
      ((chunkWindowsAux fuel t).map (fun d => d.drop CHUNK_OVERLAP)).flatten =
        t.drop CHUNK_OVERLAP := by
  intro fuel
  induction fuel with
  | zero =>
    intro t h
    have ht : t = [] := List.eq_nil_of_length_eq_zero (Nat.le_zero.mp h)
    subst ht
    rfl
  | succ fuel ih =>
    intro t h
    cases t with
    | nil => rfl
    | cons c rest =>
      simp only [chunkWindowsAux, List.map_cons, List.flatten_cons]
      rw [ih _ (by simp only [List.length_drop, List.length_cons, CHUNK_SIZE,
        CHUNK_OVERLAP] at h ⊢; omega)]
      show ((c :: rest).take 500).drop 100 ++ ((c :: rest).drop 400).drop 100 =
        (c :: rest).drop 100
      rw [List.drop_take]
      have hsw : ((c :: rest).drop 400).drop 100 =
          ((c :: rest).drop 100).drop 400 := by
        simp [List.drop_drop]
      rw [hsw, List.take_append_drop]

theorem chunkWindows_flatten_drop (t : List Char) :
    ((chunkWindows t).map (fun d => d.drop CHUNK_OVERLAP)).flatten =
      t.drop CHUNK_OVERLAP :=
  chunkWindowsAux_flatten_drop t.length t le_rfl

/-- The number of stride windows for a non-empty text of length `L` is
`⌈L / (CHUNK_SIZE − CHUNK_OVERLAP)⌉`. -/
theorem chunkWindowsAux_length :
    ∀ (fuel : Nat) (t : List Char), t.length ≤ fuel → t ≠ [] →
      (chunkWindowsAux fuel t).length =
        (t.length + (CHUNK_SIZE - CHUNK_OVERLAP) - 1) /
          (CHUNK_SIZE - CHUNK_OVERLAP) := by
  intro fuel
  induction fuel with
  | zero =>
    intro t h hne
    exact absurd (List.eq_nil_of_length_eq_zero (Nat.le_zero.mp h)) hne
  | succ fuel ih =>
    intro t h hne
    cases t with
    | nil => exact absurd rfl hne
    | cons c rest =>
      by_cases hd : (c :: rest).drop (CHUNK_SIZE - CHUNK_OVERLAP) = []
      · have h2 := congrArg List.length hd
        simp only [List.length_drop, List.length_cons, List.length_nil,
          CHUNK_SIZE, CHUNK_OVERLAP] at h2
        simp only [chunkWindowsAux, hd]
        cases fuel with
        | zero =>
          simp only [chunkWindowsAux, List.length_cons, List.length_nil,
            CHUNK_SIZE, CHUNK_OVERLAP]
          omega
        | succ fuel =>
          simp only [chunkWindowsAux, List.length_cons, List.length_nil,
            CHUNK_SIZE, CHUNK_OVERLAP]
          omega
      · have h2 : ((c :: rest).drop (CHUNK_SIZE - CHUNK_OVERLAP)).length =
            rest.length + 1 - 400 := by
          simp [CHUNK_SIZE, CHUNK_OVERLAP]
        have hgt : 400 ≤ rest.length := by
          by_contra hle
          push_neg at hle
          apply hd
          apply List.drop_eq_nil_of_le
          simp only [List.length_cons, CHUNK_SIZE, CHUNK_OVERLAP]
          omega
        have hfuel : ((c :: rest).drop (CHUNK_SIZE - CHUNK_OVERLAP)).length
            ≤ fuel := by
          simp only [List.length_cons] at h
          omega
        simp only [chunkWindowsAux, List.length_cons]
        rw [ih _ hfuel hd, h2]
        simp only [List.length_cons, CHUNK_SIZE, CHUNK_OVERLAP]
        omega

theorem chunkWindows_length (t : List Char) (h : t ≠ []) :
    (chunkWindows t).length =
      (t.length + (CHUNK_SIZE - CHUNK_OVERLAP) - 1) /
        (CHUNK_SIZE - CHUNK_OVERLAP) :=
  chunkWindowsAux_length t.length t le_rfl h

/-- A text of length 501 (so ≥ `CHUNK_SIZE`) whose second stride window
consists entirely of whitespace; `split_text_into_chunks` drops that window
because of the `chunk.strip()` test on line 274. -/
def ceWhitespaceText : List Char :=
  List.replicate 400 'a' ++ List.replicate 101 ' '

/-- C2 counterexample: for the 501-character text `ceWhitespaceText`
(length ≥ C = 500), de-overlapping and concatenating the chunker's output
does NOT reconstruct the original text: the second window is whitespace-only
and is silently dropped by the `chunk.strip()` filter, so the last character
of the text is lost. -/
theorem split_reconstruct_counterexample :
    CHUNK_SIZE ≤ ceWhitespaceText.length ∧
      deoverlap (split_text_into_chunks ceWhitespaceText) ≠ ceWhitespaceText := by
  constructor
  · decide
  · decide

/-- C2 (amended): if no stride window of the text is whitespace-only (so the
`chunk.strip()` filter on line 274 keeps every window), then removing the
`CHUNK_OVERLAP`-character overlap from every chunk after the first produced
by `split_text_into_chunks` and concatenating reconstructs the original text
exactly; and the empty text yields an empty chunk sequence. -/
theorem split_reconstruct_of_no_dropped_window (t : List Char)
    (h : ∀ c ∈ chunkWindows t, chunkKeep c) :
    deoverlap (split_text_into_chunks t) = t ∧
      split_text_into_chunks [] = [] := by
  refine ⟨?_, rfl⟩
  have hfilter : split_text_into_chunks t = chunkWindows t :=
    List.filter_eq_self.mpr h
  rw [hfilter]
  cases t with
  | nil => rfl
  | cons c rest =>
    rw [chunkWindows_cons]
    simp only [deoverlap]
    rw [chunkWindows_flatten_drop]
    have hdd : ((c :: rest).drop (CHUNK_SIZE - CHUNK_OVERLAP)).drop CHUNK_OVERLAP =
        (c :: rest).drop CHUNK_SIZE := by
      simp [List.drop_drop, CHUNK_SIZE, CHUNK_OVERLAP]
    rw [hdd, List.take_append_drop]

/-- Witness for `split_reconstruct_of_no_dropped_window` at a concrete
600-character text. -/
theorem split_reconstruct_witness :
    deoverlap (split_text_into_chunks (List.replicate 600 'a')) =
        List.replicate 600 'a' ∧
      split_text_into_chunks [] = [] :=
  split_reconstruct_of_no_dropped_window (List.replicate 600 'a') (by decide)

/-- C6 counterexample: for the non-empty text `ceWhitespaceText` (length 501)
the number of chunks returned by `split_text_into_chunks` is 1, not
`⌈501 / (C − O)⌉ = 2`: the whitespace-only second window is dropped by the
`chunk.strip()` filter. -/
theorem chunk_count_counterexample :
    ceWhitespaceText ≠ [] ∧
      (split_text_into_chunks ceWhitespaceText).length ≠
        (ceWhitespaceText.length + (CHUNK_SIZE - CHUNK_OVERLAP) - 1) /
          (CHUNK_SIZE - CHUNK_OVERLAP) := by
  constructor
  · decide
  · decide

/-- C6 (amended): for every non-empty text none of whose stride windows is
whitespace-only, the number of chunks returned by `split_text_into_chunks`
equals the number of strides of size `C − O` needed to cover the text length,
i.e. `⌈L / (C − O)⌉` with C = 500 and O = 100. -/
theorem chunk_count_of_no_dropped_window (t : List Char) (h₀ : t ≠ [])
    (h : ∀ c ∈ chunkWindows t, chunkKeep c) :
    (split_text_into_chunks t).length =
      (t.length + (CHUNK_SIZE - CHUNK_OVERLAP) - 1) /
        (CHUNK_SIZE - CHUNK_OVERLAP) := by
  rw [split_text_into_chunks, List.filter_eq_self.mpr h]
  exact chunkWindows_length t h₀

/-- Witness for `chunk_count_of_no_dropped_window`: a 1200-character text
yields exactly 3 chunks, as the claim's specific case states. -/
theorem chunk_count_witness :
    (split_text_into_chunks (List.replicate 1200 'a')).length = 3 := by
  have h := chunk_count_of_no_dropped_window (List.replicate 1200 'a')
      (by decide) (by decide)
  simpa using h

/-! ### Embedding client: `get_embeddings` (lines 103-146) -/

/-- The degraded placeholder `[0.0] * 1536` substituted for each text of a
failed batch (line 144).  Floats are modelled as rationals. -/
def zeroVec : List ℚ := List.replicate 1536 0

/-- `batch_size = 10` (line 119). -/
def batchSize : Nat := 10

/-- The batching loop `for i in range(0, len(texts), batch_size)`
(lines 121-144), with an explicit fuel argument making the recursion
structural; the fuel is always the number of texts, which bounds the
iteration count since the batch size is positive.  `respond i b` models the
provider's reply to the `i`-th batch `b`: `.ok es` carries the embeddings
extracted from a successful response, `.error` any exception raised during
the request, in which case `[[0.0] * 1536] * len(batch)` is appended in
place of the batch (line 144) and the loop continues with the next batch.
The second component counts provider calls; exactly one request is issued
per batch. -/
def getEmbeddingsLoop {α : Type}
    (respond : Nat → List α → Except Unit (List (List ℚ))) :
    Nat → Nat → List α → List (List ℚ) × Nat
  | 0, _, _ => ([], 0)
  | _ + 1, _, [] => ([], 0)
  | fuel + 1, i, t :: ts =>
    ((match respond i ((t :: ts).take batchSize) with
      | .ok es => es
      | .error _ => List.replicate ((t :: ts).take batchSize).length zeroVec)
      ++ (getEmbeddingsLoop respond fuel (i + 1) ((t :: ts).drop batchSize)).1,
     (getEmbeddingsLoop respond fuel (i + 1) ((t :: ts).drop batchSize)).2 + 1)

/-- `get_embeddings` (lines 103-146), instrumented with the number of
provider calls issued.  `key` models `DEEPSEEK_API_KEY`: `none` when the
environment variable is absent, `some ""` when set but empty; both are falsy
for the `if not DEEPSEEK_API_KEY` check on line 105, which raises
`ValueError` before any request is made. -/
def get_embeddings_run {α : Type} (key : Option String)
    (respond : Nat → List α → Except Unit (List (List ℚ)))
    (texts : List α) : Except String (List (List ℚ)) × Nat :=
  if key.getD "" = "" then
    (.error "DEEPSEEK_API_KEY environment variable not set", 0)
  else
    ((.ok (getEmbeddingsLoop respond texts.length 0 texts).1),
      (getEmbeddingsLoop respond texts.length 0 texts).2)

/-! #### Embedding client lemmas -/

theorem getEmbeddingsLoop_nil {α : Type}
    (respond : Nat → List α → Except Unit (List (List ℚ)))
    (fuel k : Nat) : getEmbeddingsLoop respond fuel k [] = ([], 0) := by
  cases fuel <;> rfl

theorem take_append_of_short {β : Type} (n : Nat) (l l' : List β)
    (h : l.length ≤ n) (h' : l' = [] ∨ l.length = n) :
    (l ++ l').take n = l := by
  rcases h' with h' | h'
  · subst h'
    rw [List.append_nil, List.take_of_length_le h]
  · rw [List.take_append_eq_append_take, List.take_of_length_le h, h',
      Nat.sub_self, List.take_zero, List.append_nil]

theorem drop_append_of_long {β : Type} (n : Nat) (l l' : List β)
    (h : l.length ≤ n) : (l ++ l').drop n = l'.drop (n - l.length) := by
  rw [List.drop_append_eq_append_drop, List.drop_eq_nil_of_le h,
    List.nil_append]

/-- The loop returns one vector per input text. -/
theorem getEmbeddingsLoop_length {α : Type}
    (respond : Nat → List α → Except Unit (List (List ℚ)))
    (hlen : ∀ i b r, respond i b = .ok r → r.length = b.length) :
    ∀ (fuel k : Nat) (ts : List α), ts.length ≤ fuel →
      (getEmbeddingsLoop respond fuel k ts).1.length = ts.length := by
  intro fuel
  induction fuel with
  | zero =>
    intro k ts h
    have ht : ts = [] := List.eq_nil_of_length_eq_zero (Nat.le_zero.mp h)
    subst ht
    rfl
  | succ fuel ih =>
    intro k ts h
    cases ts with
    | nil => rfl
    | cons t rest =>
      have hrec := ih (k + 1) ((t :: rest).drop batchSize)
        (by simp only [List.length_drop, List.length_cons, batchSize] at h ⊢
            omega)
      simp only [getEmbeddingsLoop, List.length_append, hrec]
      rcases hr : respond k ((t :: rest).take batchSize) with e | es
      · simp only [List.length_replicate, List.length_take, List.length_drop,
          List.length_cons, batchSize]
        omega
      · have := hlen k _ _ hr
        simp only [this, List.length_take, List.length_drop,
          List.length_cons, batchSize]
        omega

/-- The loop performs `⌈N / batchSize⌉` provider calls. -/
theorem getEmbeddingsLoop_calls {α : Type}
    (respond : Nat → List α → Except Unit (List (List ℚ))) :
    ∀ (fuel k : Nat) (ts : List α), ts.length ≤ fuel →
      (getEmbeddingsLoop respond fuel k ts).2 =
        (ts.length + batchSize - 1) / batchSize := by
  intro fuel
  induction fuel with
  | zero =>
    intro k ts h
    have ht : ts = [] := List.eq_nil_of_length_eq_zero (Nat.le_zero.mp h)
    subst ht
    rw [getEmbeddingsLoop_nil]
    norm_num [batchSize]
  | succ fuel ih =>
    intro k ts h
    cases ts with
    | nil =>
      rw [getEmbeddingsLoop_nil]
      norm_num [batchSize]
    | cons t rest =>
      have hrec := ih (k + 1) ((t :: rest).drop batchSize)
        (by simp only [List.length_drop, List.length_cons, batchSize] at h ⊢
            omega)
      simp only [getEmbeddingsLoop, hrec, List.length_drop, List.length_cons]
      simp only [batchSize]
      omega

/-- The slice of the output corresponding to batch `i` is the provider's
reply when that call succeeded and a run of `zeroVec` placeholders when it
failed. -/
theorem getEmbeddingsLoop_segment {α : Type}
    (respond : Nat → List α → Except Unit (List (List ℚ)))
    (hlen : ∀ i b r, respond i b = .ok r → r.length = b.length) :
    ∀ (fuel k : Nat) (ts : List α) (i : Nat), ts.length ≤ fuel →
      ((getEmbeddingsLoop respond fuel k ts).1.drop (batchSize * i)).take
          batchSize =
        (match respond (k + i) ((ts.drop (batchSize * i)).take batchSize) with
          | .ok es => es
          | .error _ =>
            List.replicate ((ts.drop (batchSize * i)).take batchSize).length
              zeroVec) := by
  intro fuel
  induction fuel with
  | zero =>
    intro k ts i h
    have ht : ts = [] := List.eq_nil_of_length_eq_zero (Nat.le_zero.mp h)
    subst ht
    rcases hr : respond (k + i)
        ((([] : List α).drop (batchSize * i)).take batchSize) with e | es
    · simp [getEmbeddingsLoop, hr]
    · have := hlen _ _ _ hr
      simp only [List.drop_nil, List.take_nil, List.length_nil] at this
      have hes : es = [] := List.eq_nil_of_length_eq_zero this
      simp [getEmbeddingsLoop, hr, hes]
  | succ fuel ih =>
    intro k ts i h
    cases ts with
    | nil =>
      rcases hr : respond (k + i)
          ((([] : List α).drop (batchSize * i)).take batchSize) with e | es
      · simp [getEmbeddingsLoop, hr]
      · have := hlen _ _ _ hr
        simp only [List.drop_nil, List.take_nil, List.length_nil] at this
        have hes : es = [] := List.eq_nil_of_length_eq_zero this
        simp [getEmbeddingsLoop, hr, hes]
    | cons t rest =>
      have hfst : (match respond k ((t :: rest).take batchSize) with
          | .ok es => es
          | .error _ =>
            List.replicate ((t :: rest).take batchSize).length
              zeroVec).length = min batchSize (rest.length + 1) := by
        rcases hr : respond k ((t :: rest).take batchSize) with e | es
        · simp [List.length_replicate, List.length_take]
        · have := hlen _ _ _ hr
          simp [this, List.length_take]
      cases i with
      | zero =>
        simp only [Nat.mul_zero, List.drop_zero, Nat.add_zero]
        rw [getEmbeddingsLoop]
        rw [take_append_of_short]
        · rw [hfst]
          exact Nat.min_le_left _ _
        · by_cases hL : batchSize ≤ rest.length + 1
          · right
            rw [hfst]
            omega
          · left
            have hdrop : (t :: rest).drop batchSize = [] :=
              List.drop_eq_nil_of_le (by simpa using Nat.le_of_not_le hL)
            rw [hdrop, getEmbeddingsLoop_nil]
      | succ i =>
        rw [getEmbeddingsLoop]
        by_cases hL : batchSize ≤ rest.length + 1
        · have hfstlen : (match respond k ((t :: rest).take batchSize) with
              | .ok es => es
              | .error _ =>
                List.replicate ((t :: rest).take batchSize).length
                  zeroVec).length = batchSize := by
            rw [hfst]
            omega
          rw [drop_append_of_long _ _ _
            (by rw [hfstlen]; exact Nat.le_mul_of_pos_right _ (Nat.succ_pos i))]
          rw [hfstlen]
          have harith : batchSize * (i + 1) - batchSize = batchSize * i := by
            ring_nf
            omega
          rw [harith]
          have hrec := ih (k + 1) ((t :: rest).drop batchSize) i
            (by simp only [List.length_drop, List.length_cons, batchSize] at h ⊢
                omega)
          rw [hrec]
          have hdd : ((t :: rest).drop batchSize).drop (batchSize * i) =
              (t :: rest).drop (batchSize * (i + 1)) := by
            rw [List.drop_drop]
            congr 1
            ring
          rw [hdd]
          have hk : k + 1 + i = k + (i + 1) := by omega
          rw [hk]
        · have hdrop : (t :: rest).drop batchSize = [] :=
            List.drop_eq_nil_of_le (by simpa using Nat.le_of_not_le hL)
          have hlen1 : (rest.length + 1) ≤ batchSize * (i + 1) := by
            have : rest.length + 1 ≤ batchSize := by
              simpa [batchSize] using Nat.le_of_not_le hL
            calc rest.length + 1 ≤ batchSize := this
              _ ≤ batchSize * (i + 1) := Nat.le_mul_of_pos_right _ (Nat.succ_pos i)
          have hdropall : (t :: rest).drop (batchSize * (i + 1)) = [] :=
            List.drop_eq_nil_of_le (by simpa using hlen1)
          rw [hdrop, getEmbeddingsLoop_nil]
          have hfstle : (match respond k ((t :: rest).take batchSize) with
              | .ok es => es
              | .error _ =>
                List.replicate ((t :: rest).take batchSize).length
                  zeroVec).length ≤ batchSize * (i + 1) := by
            rw [hfst]
            omega
          rw [List.append_nil, List.drop_eq_nil_of_le
            (by calc _ ≤ batchSize * (i+1) := hfstle), List.take_nil]
          rw [hdropall]
          rcases hr : respond (k + (i + 1)) (([] : List α).take batchSize)
            with e | es
          · simp
          · have := hlen _ _ _ hr
            simp only [List.take_nil, List.length_nil] at this
            have hes : es = [] := List.eq_nil_of_length_eq_zero this
            simp [hes]

/-- C3: for every list of N input texts (given a usable API key),
`get_embeddings` issues exactly `⌈N / 10⌉` provider calls with the fixed
batch size 10 and returns exactly N vectors in input order: the slice of the
output for batch `i` is the provider's reply for that batch when the call
succeeded, and one zero-valued vector of dimension 1536 per text of the
batch when it failed; processing continues with the next batch instead of
aborting. -/
theorem get_embeddings_spec {α : Type} (key : Option String)
    (respond : Nat → List α → Except Unit (List (List ℚ)))
    (texts : List α) (hkey : ¬ key.getD "" = "")
    (hlen : ∀ i b r, respond i b = .ok r → r.length = b.length) :
    (get_embeddings_run key respond texts).2 =
        (texts.length + batchSize - 1) / batchSize ∧
      ∃ vs, (get_embeddings_run key respond texts).1 = .ok vs ∧
        vs.length = texts.length ∧
        zeroVec.length = 1536 ∧
        ∀ i, (vs.drop (batchSize * i)).take batchSize =
          (match respond i ((texts.drop (batchSize * i)).take batchSize) with
            | .ok es => es
            | .error _ =>
              List.replicate ((texts.drop (batchSize * i)).take batchSize).length
                zeroVec) := by
  simp only [get_embeddings_run, if_neg hkey]
  refine ⟨getEmbeddingsLoop_calls respond texts.length 0 texts le_rfl,
    _, rfl, getEmbeddingsLoop_length respond hlen texts.length 0 texts le_rfl,
    by simp [zeroVec], ?_⟩
  intro i
  have hseg := getEmbeddingsLoop_segment respond hlen texts.length 0 texts i
    le_rfl
  simpa only [Nat.zero_add] using hseg

/-- Witness for `get_embeddings_spec`: 11 texts with the second batch
failing yield exactly 2 provider calls and 11 output vectors, the last 1 of
which is the degraded zero vector. -/
theorem get_embeddings_spec_witness :
    (get_embeddings_run (α := Nat) (some "sk")
        (fun i b => if i = 0 then .ok (b.map (fun _ => [(1 : ℚ)])) else .error ())
        [0, 1, 2, 3, 4, 5, 6, 7, 8, 9, 10]).2 = 2 := by
  have h := get_embeddings_spec (α := Nat) (some "sk")
      (fun i b => if i = 0 then .ok (b.map (fun _ => [(1 : ℚ)])) else .error ())
      [0, 1, 2, 3, 4, 5, 6, 7, 8, 9, 10]
      (by simp)
      (by
        intro i b r hr
        dsimp only at hr
        by_cases hi : i = 0
        · rw [if_pos hi] at hr
          injection hr with h2
          subst h2
          simp
        · rw [if_neg hi] at hr
          exact absurd hr (by simp))
  have h1 := h.1
  norm_num [batchSize] at h1
  exact h1

/-- C8: `get_embeddings` raises if and only if the `DEEPSEEK_API_KEY`
credential is missing (unset or empty), and in that case the check fires
before any provider request is attempted (zero calls); with a usable key
every provider failure is absorbed and the function returns normally. -/
theorem get_embeddings_key_check {α : Type} (key : Option String)
    (respond : Nat → List α → Except Unit (List (List ℚ)))
    (texts : List α) :
    ((∃ e, (get_embeddings_run key respond texts).1 = .error e) ↔
        key.getD "" = "") ∧
      (key.getD "" = "" → (get_embeddings_run key respond texts).2 = 0) := by
  constructor
  · constructor
    · rintro ⟨e, he⟩
      by_contra hk
      simp only [get_embeddings_run, if_neg hk] at he
      exact absurd he (by simp)
    · intro hk
      exact ⟨"DEEPSEEK_API_KEY environment variable not set",
        by simp [get_embeddings_run, hk]⟩
  · intro hk
    simp [get_embeddings_run, hk]

/-- Witness for `get_embeddings_key_check` with a missing key: no provider
call is made. -/
theorem get_embeddings_key_check_witness :
    (get_embeddings_run (α := Nat) none (fun _ _ => .error ()) [0]).2 = 0 :=
  (get_embeddings_key_check none (fun _ _ => .error ()) [0]).2 rfl

/-! ### Content fetchers: `fetch_pdf_content` (lines 289-327) and
`fetch_html_content` (lines 329-380) -/

/-- The outcome of one `requests.get` call: either a raised
`requests.exceptions.RequestException` (connection error, timeout, ...) or a
response carrying an HTTP status code and a body. -/
inductive HttpResult : Type
  | exn : HttpResult
  | resp (status : Nat) (body : String) : HttpResult
deriving DecidableEq

/-- Observable behaviour of one fetcher invocation: the returned value, the
number of `requests.get` attempts issued, and the sequence of `time.sleep`
durations (in seconds, in order). -/
structure FetchTrace where
  result : Option String
  attempts : Nat
  sleeps : List Nat
deriving DecidableEq

/-- `max_retries = 3` (lines 296 and 332). -/
def max_retries : Nat := 3

/-- `fetch_html_content` (lines 329-380) as a function of the transport `t`
(the `requests.get` outcome for each 0-based attempt index) and the
extraction pipeline `ext` (the BeautifulSoup element stripping, text
extraction and whitespace collapse of lines 355-365, an external-library
computation abstracted as a function of the body).  Control flow per
attempt: a 403 response returns `None` at once (lines 349-351); any other
status ≥ 400 raises via `raise_for_status`, and that `RequestException`
(like a transport exception) returns `None` on the last attempt and
otherwise sleeps `2 * (attempt + 1)` seconds and retries (lines 372-377); a
successful response with empty extracted text returns `None` (lines
367-369), otherwise the text.  The first argument is the number of attempts
still allowed, initially `max_retries`. -/
def fetchHtmlAux (ext : String → String) (t : Nat → HttpResult) :
    Nat → Nat → FetchTrace
  | 0, _ => ⟨none, 0, []⟩
  | remaining + 1, attempt =>
    match t attempt with
    | .exn =>
      if remaining = 0 then ⟨none, 1, []⟩
      else
        ⟨(fetchHtmlAux ext t remaining (attempt + 1)).result,
          (fetchHtmlAux ext t remaining (attempt + 1)).attempts + 1,
          2 * (attempt + 1) :: (fetchHtmlAux ext t remaining (attempt + 1)).sleeps⟩
    | .resp status body =>
      if status = 403 then ⟨none, 1, []⟩
      else if 400 ≤ status then
        if remaining = 0 then ⟨none, 1, []⟩
        else
          ⟨(fetchHtmlAux ext t remaining (attempt + 1)).result,
            (fetchHtmlAux ext t remaining (attempt + 1)).attempts + 1,
            2 * (attempt + 1) :: (fetchHtmlAux ext t remaining (attempt + 1)).sleeps⟩
      else if ext body = "" then ⟨none, 1, []⟩
      else ⟨some (ext body), 1, []⟩

def fetch_html_content (ext : String → String) (t : Nat → HttpResult) :
    FetchTrace :=
  fetchHtmlAux ext t max_retries 0

/-- The retry loop of `fetch_pdf_content` (lines 296-306).  There is no 403
special case: `raise_for_status` raises for every status ≥ 400 and the
resulting `RequestException` is retried like a transport exception; on the
last attempt it is re-raised and caught by the outer `except` (lines
325-327), which returns `None`.  On success the `result` field carries the
response body. -/
def fetchPdfLoop (t : Nat → HttpResult) : Nat → Nat → FetchTrace
  | 0, _ => ⟨none, 0, []⟩
  | remaining + 1, attempt =>
    match t attempt with
    | .exn =>
      if remaining = 0 then ⟨none, 1, []⟩
      else
        ⟨(fetchPdfLoop t remaining (attempt + 1)).result,
          (fetchPdfLoop t remaining (attempt + 1)).attempts + 1,
          2 * (attempt + 1) :: (fetchPdfLoop t remaining (attempt + 1)).sleeps⟩
    | .resp status body =>
      if 400 ≤ status then
        if remaining = 0 then ⟨none, 1, []⟩
        else
          ⟨(fetchPdfLoop t remaining (attempt + 1)).result,
            (fetchPdfLoop t remaining (attempt + 1)).attempts + 1,
            2 * (attempt + 1) :: (fetchPdfLoop t remaining (attempt + 1)).sleeps⟩
      else ⟨some body, 1, []⟩

/-- `fetch_pdf_content` (lines 289-327): run the retry loop, then extract
the text (`ext` abstracts the PyPDF2 page extraction and whitespace cleanup
of lines 309-318); empty extracted text yields `None` (lines 320-322). -/
def fetch_pdf_content (ext : String → String) (t : Nat → HttpResult) :
    FetchTrace :=
  match fetchPdfLoop t max_retries 0 with
  | ⟨none, a, s⟩ => ⟨none, a, s⟩
  | ⟨some body, a, s⟩ =>
    if ext body = "" then ⟨none, a, s⟩ else ⟨some (ext body), a, s⟩

/-! #### Fetcher lemmas -/

/-- A single-attempt trace satisfies the retry-loop invariant. -/
theorem leaf_shape (res : Option String) (remaining attempt : Nat) :
    (⟨res, 1, []⟩ : FetchTrace).attempts ≤ remaining + 1 ∧
      (1 ≤ remaining + 1 → 1 ≤ (⟨res, 1, []⟩ : FetchTrace).attempts) ∧
      (⟨res, 1, []⟩ : FetchTrace).sleeps =
        (List.range ((⟨res, 1, []⟩ : FetchTrace).attempts - 1)).map
          (fun a => 2 * (attempt + a + 1)) := by
  refine ⟨?_, ?_, ?_⟩
  · show 1 ≤ remaining + 1
    omega
  · intro _
    exact le_rfl
  · show ([] : List Nat) = (List.range (1 - 1)).map (fun a => 2 * (attempt + a + 1))
    simp

/-- Retry-loop invariant: at most `remaining` attempts are issued, at least
one when any are allowed, and the sleep sequence is
`2 * (attempt + a + 1)` for `a` ranging over the non-final attempts. -/
theorem fetchHtmlAux_shape (ext : String → String) (t : Nat → HttpResult) :
    ∀ (remaining attempt : Nat),
      (fetchHtmlAux ext t remaining attempt).attempts ≤ remaining ∧
        (1 ≤ remaining → 1 ≤ (fetchHtmlAux ext t remaining attempt).attempts) ∧
        (fetchHtmlAux ext t remaining attempt).sleeps =
          (List.range ((fetchHtmlAux ext t remaining attempt).attempts - 1)).map
            (fun a => 2 * (attempt + a + 1)) := by
  intro remaining
  induction remaining with
  | zero =>
    intro attempt
    exact ⟨le_rfl, by omega, by simp [fetchHtmlAux]⟩
  | succ remaining ih =>
    intro attempt
    have hstep :
        remaining ≠ 0 →
        (⟨(fetchHtmlAux ext t remaining (attempt + 1)).result,
          (fetchHtmlAux ext t remaining (attempt + 1)).attempts + 1,
          2 * (attempt + 1) ::
            (fetchHtmlAux ext t remaining (attempt + 1)).sleeps⟩ :
          FetchTrace).attempts ≤ remaining + 1 ∧
        (1 ≤ remaining + 1 →
          1 ≤ (⟨(fetchHtmlAux ext t remaining (attempt + 1)).result,
            (fetchHtmlAux ext t remaining (attempt + 1)).attempts + 1,
            2 * (attempt + 1) ::
              (fetchHtmlAux ext t remaining (attempt + 1)).sleeps⟩ :
            FetchTrace).attempts) ∧
        (⟨(fetchHtmlAux ext t remaining (attempt + 1)).result,
          (fetchHtmlAux ext t remaining (attempt + 1)).attempts + 1,
          2 * (attempt + 1) ::
            (fetchHtmlAux ext t remaining (attempt + 1)).sleeps⟩ :
          FetchTrace).sleeps =
          (List.range
            ((⟨(fetchHtmlAux ext t remaining (attempt + 1)).result,
              (fetchHtmlAux ext t remaining (attempt + 1)).attempts + 1,
              2 * (attempt + 1) ::
                (fetchHtmlAux ext t remaining (attempt + 1)).sleeps⟩ :
              FetchTrace).attempts - 1)).map
            (fun a => 2 * (attempt + a + 1)) := by
      intro hne
      obtain ⟨h1, h2, h3⟩ := ih (attempt + 1)
      refine ⟨Nat.succ_le_succ h1, fun _ => Nat.succ_le_succ (Nat.zero_le _), ?_⟩
      show 2 * (attempt + 1) :: (fetchHtmlAux ext t remaining (attempt + 1)).sleeps =
        (List.range ((fetchHtmlAux ext t remaining (attempt + 1)).attempts + 1 - 1)).map
          (fun a => 2 * (attempt + a + 1))
      rw [Nat.add_sub_cancel]
      have hpos : 1 ≤ (fetchHtmlAux ext t remaining (attempt + 1)).attempts :=
        h2 (by omega)
      obtain ⟨m, hm⟩ :
          ∃ m, (fetchHtmlAux ext t remaining (attempt + 1)).attempts = m + 1 :=
        ⟨(fetchHtmlAux ext t remaining (attempt + 1)).attempts - 1, by omega⟩
      rw [hm] at h3 ⊢
      rw [Nat.add_sub_cancel] at h3
      rw [h3, List.range_succ_eq_map, List.map_cons, List.map_map]
      refine List.cons_eq_cons.mpr ⟨by omega, ?_⟩
      apply List.map_congr_left
      intro a _
      simp only [Function.comp_apply]
      omega
    cases ht : t attempt with
    | exn =>
      by_cases hrem : remaining = 0
      · subst hrem
        refine ⟨?_, ?_, ?_⟩ <;> simp [fetchHtmlAux, ht]
      · simp only [fetchHtmlAux, ht, if_neg hrem]
        exact hstep hrem
    | resp status body =>
      simp only [fetchHtmlAux, ht]
      by_cases h403 : status = 403
      · rw [if_pos h403]
        exact leaf_shape _ _ _
      · rw [if_neg h403]
        by_cases h400 : 400 ≤ status
        · rw [if_pos h400]
          by_cases hrem : remaining = 0
          · rw [if_pos hrem]
            exact leaf_shape _ _ _
          · rw [if_neg hrem]
            exact hstep hrem
        · rw [if_neg h400]
          by_cases hemp : ext body = ""
          · rw [if_pos hemp]
            exact leaf_shape _ _ _
          · rw [if_neg hemp]
            exact leaf_shape _ _ _

/-- Same invariant for the PDF retry loop. -/
theorem fetchPdfLoop_shape (t : Nat → HttpResult) :
    ∀ (remaining attempt : Nat),
      (fetchPdfLoop t remaining attempt).attempts ≤ remaining ∧
        (1 ≤ remaining → 1 ≤ (fetchPdfLoop t remaining attempt).attempts) ∧
        (fetchPdfLoop t remaining attempt).sleeps =
          (List.range ((fetchPdfLoop t remaining attempt).attempts - 1)).map
            (fun a => 2 * (attempt + a + 1)) := by
  intro remaining
  induction remaining with
  | zero =>
    intro attempt
    exact ⟨le_rfl, by omega, by simp [fetchPdfLoop]⟩
  | succ remaining ih =>
    intro attempt
    have hstep :
        remaining ≠ 0 →
        (⟨(fetchPdfLoop t remaining (attempt + 1)).result,
          (fetchPdfLoop t remaining (attempt + 1)).attempts + 1,
          2 * (attempt + 1) ::
            (fetchPdfLoop t remaining (attempt + 1)).sleeps⟩ :
          FetchTrace).attempts ≤ remaining + 1 ∧
        (1 ≤ remaining + 1 →
          1 ≤ (⟨(fetchPdfLoop t remaining (attempt + 1)).result,
            (fetchPdfLoop t remaining (attempt + 1)).attempts + 1,
            2 * (attempt + 1) ::
              (fetchPdfLoop t remaining (attempt + 1)).sleeps⟩ :
            FetchTrace).attempts) ∧
        (⟨(fetchPdfLoop t remaining (attempt + 1)).result,
          (fetchPdfLoop t remaining (attempt + 1)).attempts + 1,
          2 * (attempt + 1) ::
            (fetchPdfLoop t remaining (attempt + 1)).sleeps⟩ :
          FetchTrace).sleeps =
          (List.range
            ((⟨(fetchPdfLoop t remaining (attempt + 1)).result,
              (fetchPdfLoop t remaining (attempt + 1)).attempts + 1,
              2 * (attempt + 1) ::
                (fetchPdfLoop t remaining (attempt + 1)).sleeps⟩ :
              FetchTrace).attempts - 1)).map
            (fun a => 2 * (attempt + a + 1)) := by
      intro hne
      obtain ⟨h1, h2, h3⟩ := ih (attempt + 1)
      refine ⟨Nat.succ_le_succ h1, fun _ => Nat.succ_le_succ (Nat.zero_le _), ?_⟩
      show 2 * (attempt + 1) :: (fetchPdfLoop t remaining (attempt + 1)).sleeps =
        (List.range ((fetchPdfLoop t remaining (attempt + 1)).attempts + 1 - 1)).map
          (fun a => 2 * (attempt + a + 1))
      rw [Nat.add_sub_cancel]
      have hpos : 1 ≤ (fetchPdfLoop t remaining (attempt + 1)).attempts :=
        h2 (by omega)
      obtain ⟨m, hm⟩ :
          ∃ m, (fetchPdfLoop t remaining (attempt + 1)).attempts = m + 1 :=
        ⟨(fetchPdfLoop t remaining (attempt + 1)).attempts - 1, by omega⟩
      rw [hm] at h3 ⊢
      rw [Nat.add_sub_cancel] at h3
      rw [h3, List.range_succ_eq_map, List.map_cons, List.map_map]
      refine List.cons_eq_cons.mpr ⟨by omega, ?_⟩
      apply List.map_congr_left
      intro a _
      simp only [Function.comp_apply]
      omega
    cases ht : t attempt with
    | exn =>
      by_cases hrem : remaining = 0
      · subst hrem
        refine ⟨?_, ?_, ?_⟩ <;> simp [fetchPdfLoop, ht]
      · simp only [fetchPdfLoop, ht, if_neg hrem]
        exact hstep hrem
    | resp status body =>
      simp only [fetchPdfLoop, ht]
      by_cases h400 : 400 ≤ status
      · rw [if_pos h400]
        by_cases hrem : remaining = 0
        · rw [if_pos hrem]
          exact leaf_shape _ _ _
        · rw [if_neg hrem]
          exact hstep hrem
      · rw [if_neg h400]
        exact leaf_shape _ _ _

/-- C4 counterexample: a PDF URL whose server answers HTTP 403 on every
attempt is NOT handled as a permanent block by `fetch_pdf_content`: the 403
reaches `raise_for_status`, becomes a retryable `RequestException`, and the
fetcher makes 3 attempts with two backoff sleeps (2 s and 4 s) before
returning `None` — contradicting "returns none immediately with zero
retries: no further fetch attempt and no backoff delay". -/
theorem fetch_403_counterexample :
    (fetch_pdf_content id (fun _ => .resp 403 "x")).result = none ∧
      (fetch_pdf_content id (fun _ => .resp 403 "x")).attempts = 3 ∧
      (fetch_pdf_content id (fun _ => .resp 403 "x")).sleeps = [2, 4] := by
  decide

/-- C4 (amended): for the HTML path (`fetch_html_content`) an HTTP 403
response is returned as `none` immediately, with a single request, no
further fetch attempt and no backoff sleep; the PDF path
(`fetch_pdf_content`) instead treats 403 like any other HTTP error and
retries it. -/
theorem fetch_html_403_no_retry (ext : String → String)
    (t : Nat → HttpResult) (body : String) (h : t 0 = .resp 403 body) :
    fetch_html_content ext t = ⟨none, 1, []⟩ := by
  show fetchHtmlAux ext t 3 0 = _
  simp [fetchHtmlAux, h]

/-- Witness for `fetch_html_403_no_retry` at a concrete transport. -/
theorem fetch_html_403_no_retry_witness :
    fetch_html_content id (fun _ => .resp 403 "x") = ⟨none, 1, []⟩ :=
  fetch_html_403_no_retry id (fun _ => .resp 403 "x") "x" rfl

/-- C5: both content fetchers make at most `max_retries = 3` request
attempts; the sleeps performed are exactly `2 ^ (a + 1)` seconds after the
`(a+1)`-th failed non-final attempt (i.e. 2^1 then 2^2 — exponential
backoff); and a transport that fails transiently on the first two attempts
and succeeds on the third (with non-empty extracted text) yields the
content after exactly two backoff delays. -/
theorem fetch_retry_backoff :
    (∀ (ext : String → String) (t : Nat → HttpResult),
        (fetch_html_content ext t).attempts ≤ max_retries ∧
          (fetch_html_content ext t).sleeps =
            (List.range ((fetch_html_content ext t).attempts - 1)).map
              (fun a => 2 ^ (a + 1))) ∧
      (∀ (ext : String → String) (t : Nat → HttpResult),
        (fetch_pdf_content ext t).attempts ≤ max_retries ∧
          (fetch_pdf_content ext t).sleeps =
            (List.range ((fetch_pdf_content ext t).attempts - 1)).map
              (fun a => 2 ^ (a + 1))) ∧
      (∀ (ext : String → String) (t : Nat → HttpResult) (body : String),
        t 0 = .exn → t 1 = .exn → t 2 = .resp 200 body → ¬ ext body = "" →
          fetch_html_content ext t = ⟨some (ext body), 3, [2 ^ 1, 2 ^ 2]⟩) ∧
      (∀ (ext : String → String) (t : Nat → HttpResult) (body : String),
        t 0 = .exn → t 1 = .exn → t 2 = .resp 200 body → ¬ ext body = "" →
          fetch_pdf_content ext t = ⟨some (ext body), 3, [2 ^ 1, 2 ^ 2]⟩) := by
  have hconv : ∀ (tr : FetchTrace), tr.attempts ≤ 3 →
      tr.sleeps = (List.range (tr.attempts - 1)).map (fun a => 2 * (0 + a + 1)) →
      tr.sleeps = (List.range (tr.attempts - 1)).map (fun a => 2 ^ (a + 1)) := by
    intro tr hle hsl
    rw [hsl]
    apply List.map_congr_left
    intro a ha
    rw [List.mem_range] at ha
    have ha2 : a < 2 := by omega
    interval_cases a <;> norm_num
  refine ⟨?_, ?_, ?_, ?_⟩
  · intro ext t
    obtain ⟨h1, _, h3⟩ := fetchHtmlAux_shape ext t max_retries 0
    exact ⟨h1, hconv _ h1 h3⟩
  · intro ext t
    obtain ⟨h1, _, h3⟩ := fetchPdfLoop_shape t max_retries 0
    show (fetch_pdf_content ext t).attempts ≤ max_retries ∧ _
    rcases hres : fetchPdfLoop t max_retries 0 with ⟨res, a, s⟩
    rw [hres] at h1 h3
    cases res with
    | none =>
      simp only [fetch_pdf_content, hres]
      exact ⟨h1, hconv _ h1 h3⟩
    | some body =>
      simp only [fetch_pdf_content, hres]
      by_cases hemp : ext body = ""
      · rw [if_pos hemp]
        exact ⟨h1, hconv _ h1 h3⟩
      · rw [if_neg hemp]
        exact ⟨h1, hconv _ h1 h3⟩
  · intro ext t body h0 h1 h2 hemp
    show fetchHtmlAux ext t 3 0 = _
    simp [fetchHtmlAux, h0, h1, h2, hemp]
  · intro ext t body h0 h1 h2 hemp
    have hloop : fetchPdfLoop t 3 0 = ⟨some body, 3, [2, 4]⟩ := by
      simp [fetchPdfLoop, h0, h1, h2]
    show (match fetchPdfLoop t max_retries 0 with
      | ⟨none, a, s⟩ => (⟨none, a, s⟩ : FetchTrace)
      | ⟨some b, a, s⟩ =>
        if ext b = "" then ⟨none, a, s⟩ else ⟨some (ext b), a, s⟩) = _
    rw [show max_retries = 3 from rfl, hloop]
    simp [hemp]

/-- Witness for `fetch_retry_backoff`: a transport failing twice then
serving a 200 response yields the content after sleeps of 2 and 4 seconds,
for both fetchers. -/
theorem fetch_retry_backoff_witness :
    fetch_html_content id
        (fun n => if n < 2 then .exn else .resp 200 "content") =
      ⟨some "content", 3, [2 ^ 1, 2 ^ 2]⟩ ∧
      fetch_pdf_content id
          (fun n => if n < 2 then .exn else .resp 200 "content") =
        ⟨some "content", 3, [2 ^ 1, 2 ^ 2]⟩ :=
  ⟨fetch_retry_backoff.2.2.1 id _ "content" rfl rfl rfl (by decide),
    fetch_retry_backoff.2.2.2 id _ "content" rfl rfl rfl (by decide)⟩

/-! ### Persistence layer: `get_db_connection` (lines 57-66),
`store_document` (lines 383-415), `store_chunks` (lines 417-453) -/

/-- `get_db_connection` sets `conn.autocommit = True` (line 61).  Under
psycopg2 autocommit every executed statement is committed immediately and
`conn.commit()` / `conn.rollback()` are no-ops on an empty transaction. -/
def get_db_connection_autocommit : Bool := true

/-- A row of the `"Document"` table as inserted by `store_document`
(lines 390-404). -/
structure DocRow where
  id : String
  title : String
  url : String
  broadTopic : String
  sourceType : String
  content : List Char
deriving DecidableEq

/-- A row of the `"Chunk"` table as inserted by `store_chunks`
(lines 428-444): `sequenceNumber` is the enumeration index `i` and the
metadata carries `{"position": i}`. -/
structure ChunkRow where
  documentId : String
  text : List Char
  embedding : List ℚ
  sequenceNumber : Nat
  metadataPosition : Nat
deriving DecidableEq

/-- Database state: the committed (visible) rows of the two tables and the
rows of the currently open transaction. -/
structure DBState where
  docs : List DocRow
  chunks : List ChunkRow
  pendingDocs : List DocRow
  pendingChunks : List ChunkRow
deriving DecidableEq

def DBState.empty : DBState := ⟨[], [], [], []⟩

/-- Executing an `INSERT` into `"Chunk"`: with `autocommit = True` the
statement commits immediately; otherwise the row joins the open
transaction. -/
def insertChunkRow (autocommit : Bool) (st : DBState) (r : ChunkRow) :
    DBState :=
  if autocommit then { st with chunks := st.chunks ++ [r] }
  else { st with pendingChunks := st.pendingChunks ++ [r] }

/-- Executing an `INSERT` into `"Document"`. -/
def insertDocRow (autocommit : Bool) (st : DBState) (r : DocRow) : DBState :=
  if autocommit then { st with docs := st.docs ++ [r] }
  else { st with pendingDocs := st.pendingDocs ++ [r] }

/-- `conn.commit()`: publish the open transaction (a no-op under
autocommit, where the pending lists are empty). -/
def DBState.commit (st : DBState) : DBState :=
  ⟨st.docs ++ st.pendingDocs, st.chunks ++ st.pendingChunks, [], []⟩

/-- `conn.rollback()`: discard the open transaction (a no-op under
autocommit — already-committed rows are NOT removed). -/
def DBState.rollback (st : DBState) : DBState :=
  ⟨st.docs, st.chunks, [], []⟩

/-- The rows `store_chunks` builds from
`enumerate(zip(chunks, embeddings))` (lines 422-444): one row per pair,
with `sequenceNumber` and metadata `position` both the enumeration
index. -/
def chunkRows (documentId : String) (chunks : List (List Char))
    (embeddings : List (List ℚ)) : List ChunkRow :=
  (List.zip chunks embeddings).enum.map
    (fun p => ⟨documentId, p.2.1, p.2.2, p.1, p.1⟩)

/-- The insertion loop of `store_chunks` with failure injection:
`failAt = some i` simulates the `cursor.execute` for the `i`-th row raising
(so that row and all later rows are not inserted).  Returns the state
reached and whether the loop completed without an exception. -/
def insertChunksFrom (autocommit : Bool) (failAt : Option Nat) :
    DBState → Nat → List ChunkRow → DBState × Bool
  | st, _, [] => (st, true)
  | st, i, r :: rs =>
    if failAt = some i then (st, false)
    else insertChunksFrom autocommit failAt
      (insertChunkRow autocommit st r) (i + 1) rs

/-- `store_chunks` (lines 417-453): insert one row per
`enumerate(zip(chunks, embeddings))` element; after the loop
`conn.commit()` (line 446); on an exception `conn.rollback()` and re-raise
(lines 448-451) — the Bool component is `false` when the injected failure
fired, modelling the propagated exception. -/
def store_chunks_run (autocommit : Bool) (failAt : Option Nat)
    (st : DBState) (documentId : String) (chunks : List (List Char))
    (embeddings : List (List ℚ)) : DBState × Bool :=
  match insertChunksFrom autocommit failAt st 0
      (chunkRows documentId chunks embeddings) with
  | (st', true) => (st'.commit, true)
  | (st', false) => (st'.rollback, false)

/-- `store_document` (lines 383-415) with failure injection: when the
`INSERT` raises no row is written, the transaction is rolled back and the
exception propagates (Bool component `false`); otherwise the row is
inserted and committed. -/
def store_document_run (autocommit : Bool) (fails : Bool) (st : DBState)
    (row : DocRow) : DBState × Bool :=
  if fails then (st.rollback, false)
  else ((insertDocRow autocommit st row).commit, true)

/-- One iteration of the per-document loop of `ingest_topic`
(lines 490-520), composed from the functions above with the same failure
injections.  A document without content is skipped before any write
(lines 494-496); `documents_saved` is incremented right after
`store_document` returns (line 500); an empty chunk list skips the
embedding and chunk-storing stages (lines 506-508); any exception raised by
`store_document`, `get_embeddings` or `store_chunks` is caught by the
`except` of lines 518-520 and the loop continues, leaving the counters as
they were at the failure point.  Returns the database state, then
`documents_saved`, then `chunks_saved`. -/
def ingest_process_doc (key : Option String)
    (respond : Nat → List (List Char) → Except Unit (List (List ℚ)))
    (autocommit : Bool) (docFails : Bool) (chunkFailAt : Option Nat)
    (st : DBState) (documentsSaved chunksSaved : Nat) (row : DocRow) :
    DBState × Nat × Nat :=
  if row.content = [] then (st, documentsSaved, chunksSaved)
  else
    match store_document_run autocommit docFails st row with
    | (st1, false) => (st1, documentsSaved, chunksSaved)
    | (st1, true) =>
      if split_text_into_chunks row.content = [] then
        (st1, documentsSaved + 1, chunksSaved)
      else
        match get_embeddings_run key respond
            (split_text_into_chunks row.content) with
        | (.error _, _) => (st1, documentsSaved + 1, chunksSaved)
        | (.ok embeddings, _) =>
          match store_chunks_run autocommit chunkFailAt st1 row.id
              (split_text_into_chunks row.content) embeddings with
          | (st2, true) =>
            (st2, documentsSaved + 1,
              chunksSaved + (split_text_into_chunks row.content).length)
          | (st2, false) => (st2, documentsSaved + 1, chunksSaved)

/-! #### Persistence lemmas and claims -/

theorem insertChunksFrom_none (autocommit : Bool) :
    ∀ (rows : List ChunkRow) (st : DBState) (i : Nat),
      insertChunksFrom autocommit none st i rows =
        (rows.foldl (insertChunkRow autocommit) st, true) := by
  intro rows
  induction rows with
  | nil =>
    intro st i
    rfl
  | cons r rs ih =>
    intro st i
    simp only [insertChunksFrom, List.foldl_cons]
    rw [if_neg (by simp)]
    exact ih _ _

theorem foldl_insertChunkRow (autocommit : Bool) :
    ∀ (rows : List ChunkRow) (st : DBState),
      rows.foldl (insertChunkRow autocommit) st =
        if autocommit then
          ⟨st.docs, st.chunks ++ rows, st.pendingDocs, st.pendingChunks⟩
        else
          ⟨st.docs, st.chunks, st.pendingDocs, st.pendingChunks ++ rows⟩ := by
  intro rows
  induction rows with
  | nil =>
    intro st
    cases autocommit <;> simp
  | cons r rs ih =>
    intro st
    rw [List.foldl_cons, ih]
    cases autocommit <;> simp [insertChunkRow]

/-- C1 — evaluation of the code at the failing input.  `get_db_connection`
opens the connection with `autocommit = True` (line 61), so every chunk
`INSERT` commits immediately and the `conn.rollback()` of line 450 is a
no-op.  When the insertion of the second chunk of a two-chunk batch fails,
exactly one chunk row for the document remains visible afterwards — not
zero, contradicting the claimed batch atomicity. -/
theorem store_chunks_autocommit_not_atomic :
    (store_chunks_run get_db_connection_autocommit (some 1) DBState.empty
        "doc-1" [['a'], ['b']] [[1], [2]]).2 = false ∧
      ((store_chunks_run get_db_connection_autocommit (some 1) DBState.empty
          "doc-1" [['a'], ['b']] [[1], [2]]).1.chunks.filter
        (fun c => c.documentId = "doc-1")).length = 1 := by
  decide

/-- C7: the rows `store_chunks` writes for a document carry
`sequenceNumber` values exactly `0, 1, …, k−1` in the order of the input
list, and each row's metadata `position` equals its `sequenceNumber`. -/
theorem store_chunks_sequence_numbers (documentId : String)
    (chunks : List (List Char)) (embeddings : List (List ℚ)) :
    (chunkRows documentId chunks embeddings).map
        (fun r => r.sequenceNumber) =
      List.range (chunkRows documentId chunks embeddings).length ∧
      ∀ r ∈ chunkRows documentId chunks embeddings,
        r.metadataPosition = r.sequenceNumber := by
  constructor
  · have h1 : (chunkRows documentId chunks embeddings).map
        (fun r => r.sequenceNumber) =
        (List.zip chunks embeddings).enum.map Prod.fst := by
      rw [chunkRows, List.map_map]
      rfl
    rw [h1, List.enum_map_fst, chunkRows, List.length_map, List.enum_length]
  · intro r hr
    rw [chunkRows] at hr
    obtain ⟨p, _, hp⟩ := List.mem_map.mp hr
    subst hp
    rfl

/-- Witness for `store_chunks_sequence_numbers`: three chunks receive
sequence numbers `[0, 1, 2]`. -/
theorem store_chunks_sequence_numbers_witness :
    (chunkRows "d" [['a'], ['b'], ['c']] [[1], [2], [3]]).map
        (fun r => r.sequenceNumber) = [0, 1, 2] := by
  rw [(store_chunks_sequence_numbers "d" [['a'], ['b'], ['c']]
    [[1], [2], [3]]).1]
  decide

/-- C9: when the chunk and embedding lists have different lengths,
`zip` silently truncates to the shorter one: `store_chunks` writes exactly
`min(len(chunks), len(embeddings))` rows and raises no error. -/
theorem store_chunks_zip_truncates (autocommit : Bool) (st : DBState)
    (documentId : String) (chunks : List (List Char))
    (embeddings : List (List ℚ)) (hpend : st.pendingChunks = []) :
    (store_chunks_run autocommit none st documentId chunks embeddings).2 =
        true ∧
      (store_chunks_run autocommit none st documentId chunks
          embeddings).1.chunks.length =
        st.chunks.length + min chunks.length embeddings.length := by
  have hrows : (chunkRows documentId chunks embeddings).length =
      min chunks.length embeddings.length := by
    rw [chunkRows, List.length_map, List.enum_length, List.length_zip]
  cases autocommit with
  | true =>
    have hins : insertChunksFrom true none st 0
        (chunkRows documentId chunks embeddings) =
        (⟨st.docs, st.chunks ++ chunkRows documentId chunks embeddings,
          st.pendingDocs, st.pendingChunks⟩, true) := by
      rw [insertChunksFrom_none, foldl_insertChunkRow]
      simp
    rw [store_chunks_run, hins]
    refine ⟨rfl, ?_⟩
    show (DBState.commit _).chunks.length = _
    simp [DBState.commit, hpend, hrows]
  | false =>
    have hins : insertChunksFrom false none st 0
        (chunkRows documentId chunks embeddings) =
        (⟨st.docs, st.chunks, st.pendingDocs,
          st.pendingChunks ++ chunkRows documentId chunks embeddings⟩,
          true) := by
      rw [insertChunksFrom_none, foldl_insertChunkRow]
      simp
    rw [store_chunks_run, hins]
    refine ⟨rfl, ?_⟩
    show (DBState.commit _).chunks.length = _
    simp [DBState.commit, hpend, hrows]

/-- Witness for `store_chunks_zip_truncates`: two chunks and one embedding
produce one stored row and no error. -/
theorem store_chunks_zip_truncates_witness :
    (store_chunks_run true none DBState.empty "d" [['a'], ['b']]
        [[1]]).2 = true ∧
      (store_chunks_run true none DBState.empty "d" [['a'], ['b']]
          [[1]]).1.chunks.length = 0 + min 2 1 :=
  store_chunks_zip_truncates true DBState.empty "d" [['a'], ['b']] [[1]] rfl

/-- C10: when `store_document` succeeds but `store_chunks` later fails for
the same document, the committed `Document` row is not removed, the
per-topic `documents_saved` counter still counts the document, and zero
chunk rows for it are visible — a `Document` with non-empty content and no
chunks is an observable final state. -/
theorem ingest_orphan_document (key : Option String)
    (respond : Nat → List (List Char) → Except Unit (List (List ℚ)))
    (st : DBState) (documentsSaved chunksSaved : Nat) (row : DocRow)
    (hkey : ¬ key.getD "" = "") (hcontent : ¬ row.content = [])
    (hpend : st.pendingChunks = []) (hpendd : st.pendingDocs = [])
    (hfresh : ∀ c ∈ st.chunks, ¬ c.documentId = row.id) :
    row ∈ (ingest_process_doc key respond get_db_connection_autocommit false
        (some 0) st documentsSaved chunksSaved row).1.docs ∧
      (ingest_process_doc key respond get_db_connection_autocommit false
        (some 0) st documentsSaved chunksSaved row).2.1 =
        documentsSaved + 1 ∧
      ((ingest_process_doc key respond get_db_connection_autocommit false
        (some 0) st documentsSaved chunksSaved row).1.chunks.filter
          (fun c => c.documentId = row.id)).length = 0 := by
  have hfilter : st.chunks.filter (fun c => c.documentId = row.id) = [] :=
    List.filter_eq_nil_iff.mpr (by
      intro c hc
      simpa using hfresh c hc)
  have hST : store_document_run get_db_connection_autocommit false st row =
      (⟨st.docs ++ [row], st.chunks, [], []⟩, true) := by
    simp [store_document_run, insertDocRow, DBState.commit,
      get_db_connection_autocommit, hpend, hpendd]
  by_cases hsplit : split_text_into_chunks row.content = []
  · simp only [ingest_process_doc, if_neg hcontent, hST, if_pos hsplit]
    refine ⟨by simp, trivial, ?_⟩
    show (st.chunks.filter (fun c => c.documentId = row.id)).length = 0
    rw [hfilter]
    rfl
  · simp only [ingest_process_doc, if_neg hcontent, hST, if_neg hsplit]
    have hge : get_embeddings_run key respond
        (split_text_into_chunks row.content) =
        (.ok (getEmbeddingsLoop respond
            (split_text_into_chunks row.content).length 0
            (split_text_into_chunks row.content)).1,
          (getEmbeddingsLoop respond
            (split_text_into_chunks row.content).length 0
            (split_text_into_chunks row.content)).2) := by
      simp [get_embeddings_run, if_neg hkey]
    rw [hge]
    have hscgen : ∀ embeddings : List (List ℚ),
        (store_chunks_run get_db_connection_autocommit (some 0)
          ⟨st.docs ++ [row], st.chunks, [], []⟩ row.id
          (split_text_into_chunks row.content) embeddings).1.docs =
            st.docs ++ [row] ∧
        (store_chunks_run get_db_connection_autocommit (some 0)
          ⟨st.docs ++ [row], st.chunks, [], []⟩ row.id
          (split_text_into_chunks row.content) embeddings).1.chunks =
            st.chunks := by
      intro embeddings
      cases hrows : chunkRows row.id (split_text_into_chunks row.content)
          embeddings with
      | nil =>
        rw [store_chunks_run, hrows]
        show (DBState.commit ⟨st.docs ++ [row], st.chunks, [], []⟩).docs =
            st.docs ++ [row] ∧
          (DBState.commit ⟨st.docs ++ [row], st.chunks, [], []⟩).chunks =
            st.chunks
        simp [DBState.commit]
      | cons r0 rs =>
        rw [store_chunks_run, hrows]
        show (DBState.rollback ⟨st.docs ++ [row], st.chunks, [], []⟩).docs =
            st.docs ++ [row] ∧
          (DBState.rollback ⟨st.docs ++ [row], st.chunks, [], []⟩).chunks =
            st.chunks
        exact ⟨rfl, rfl⟩
    rcases hsc : store_chunks_run get_db_connection_autocommit (some 0)
        ⟨st.docs ++ [row], st.chunks, [], []⟩ row.id
        (split_text_into_chunks row.content)
        (getEmbeddingsLoop respond
          (split_text_into_chunks row.content).length 0
          (split_text_into_chunks row.content)).1 with ⟨st2, b⟩
    obtain ⟨hdocs, hchunks⟩ := hscgen (getEmbeddingsLoop respond
      (split_text_into_chunks row.content).length 0
      (split_text_into_chunks row.content)).1
    rw [hsc] at hdocs hchunks
    dsimp only at hdocs hchunks
    cases b with
    | true =>
      simp only [hsc]
      refine ⟨?_, trivial, ?_⟩
      · rw [hdocs]
        simp
      · rw [hchunks, hfilter]
        rfl
    | false =>
      simp only [hsc]
      refine ⟨?_, trivial, ?_⟩
      · rw [hdocs]
        simp
      · rw [hchunks, hfilter]
        rfl

/-- Witness for `ingest_orphan_document` at a concrete document whose chunk
insertion fails. -/
theorem ingest_orphan_document_witness :
    (⟨"d1", "T", "u", "b", "s", ['x']⟩ : DocRow) ∈
        (ingest_process_doc (some "sk") (fun _ _ => .error ())
          get_db_connection_autocommit false (some 0) DBState.empty 0 0
          ⟨"d1", "T", "u", "b", "s", ['x']⟩).1.docs ∧
      (ingest_process_doc (some "sk") (fun _ _ => .error ())
        get_db_connection_autocommit false (some 0) DBState.empty 0 0
        ⟨"d1", "T", "u", "b", "s", ['x']⟩).2.1 = 0 + 1 ∧
      ((ingest_process_doc (some "sk") (fun _ _ => .error ())
        get_db_connection_autocommit false (some 0) DBState.empty 0 0
        ⟨"d1", "T", "u", "b", "s", ['x']⟩).1.chunks.filter
          (fun c => c.documentId = ("d1" : String))).length = 0 :=
  ingest_orphan_document (some "sk") (fun _ _ => .error ()) DBState.empty 0 0
    ⟨"d1", "T", "u", "b", "s", ['x']⟩ (by decide) (by decide) rfl rfl
    (by intro c hc; exact absurd hc (List.not_mem_nil c))

end Ingest
